import Mathlib

/-!
Shallow embedding of the file-I/O decoration layer of pdlfs-common
(src/include/pdlfs-common/env_files.h): the buffered writable decorator
`UnsafeBufferedWritableFile`, the measurement decorators
`MeasuredWritableFile` and `MeasuredSequentialFile`, and the whole-file
buffered random-access adapter `WholeFileBufferedRandomAccessFile`.

Bytes are modelled as `List Char`, `pdlfs::Status` as a small inductive,
and the wrapped base files as explicit state records whose per-call
outcomes are drawn from an oracle `res : Nat → Bool` indexed by a call
counter.  All definitions are executable.
-/

namespace PdlfsEnvFiles

/-- Outcome of a file operation, mirroring the `pdlfs::Status` values this
layer produces: success, an I/O error propagated from the base file, or
`Status::Disconnected`. -/
inductive Status where
  | ok
  | ioerr
  | disconnected
  deriving DecidableEq, Repr

/-- Model of the wrapped `WritableFile* base_` underneath an
`UnsafeBufferedWritableFile`.  `res k` is the outcome of the k-th call made
to the base file (`true` = `Status::OK`), `calls` counts the calls made so
far, and `written` records the bytes successfully appended, in order. -/
structure BaseFile where
  res : Nat → Bool
  calls : Nat
  written : List Char

/-- `base_->Append(data)`: consumes one outcome from the oracle; on success
`data` is appended to `written`, on failure nothing is recorded. -/
def BaseFile.appendBytes (b : BaseFile) (d : List Char) : Status × BaseFile :=
  if b.res b.calls then
    (Status.ok, { b with calls := b.calls + 1, written := b.written ++ d })
  else
    (Status.ioerr, { b with calls := b.calls + 1 })

/-- `base_->Sync()`: consumes one outcome from the oracle; never changes
`written`. -/
def BaseFile.syncBytes (b : BaseFile) : Status × BaseFile :=
  if b.res b.calls then (Status.ok, { b with calls := b.calls + 1 })
  else (Status.ioerr, { b with calls := b.calls + 1 })

/-- State of `pdlfs::UnsafeBufferedWritableFile`: the owned base writer,
`offset_` (number of bytes flushed), the fixed capacity `max_buf_size_`
and the in-memory buffer `buf_`. -/
structure UnsafeBufferedWritableFile where
  base : BaseFile
  offset : Nat
  maxBufSize : Nat
  buf : List Char

namespace UnsafeBufferedWritableFile

/-- `UnsafeBufferedWritableFile::EmptyBuffer()` (env_files.h lines 114-126):
if the buffer is non-empty, hand it to `base_->Append` in one call; on
success advance `offset_` by the buffer length and clear the buffer; on
failure leave buffer and offset untouched and return the failure.  When the
buffer is empty, return OK without touching the base. -/
def emptyBuffer (f : UnsafeBufferedWritableFile) :
    Status × UnsafeBufferedWritableFile :=
  if f.buf.length ≠ 0 then
    let r := f.base.appendBytes f.buf
    if r.1 = Status.ok then
      (Status.ok,
        { f with base := r.2, offset := f.offset + f.buf.length, buf := [] })
    else
      (r.1, { f with base := r.2 })
  else (Status.ok, f)

/-- The `while (buf_.size() + chunk.size() >= max_buf_size_)` loop of
`UnsafeBufferedWritableFile::Append` (env_files.h lines 70-92), with explicit
fuel: `none` models the loop failing to terminate within the given fuel.
Each iteration tops the buffer off to exactly `max_buf_size_` with a prefix
of the remaining chunk, calls `EmptyBuffer()`, and on success drops that
prefix and continues; on failure it returns immediately (the rest of the
chunk is discarded).  When the loop guard fails the leftover chunk is
appended to the buffer and OK is returned. -/
def appendLoop (fuel : Nat) (chunk : List Char) (f : UnsafeBufferedWritableFile) :
    Option (Status × UnsafeBufferedWritableFile) :=
  match fuel with
  | 0 => none
  | Nat.succ fuel =>
    if f.maxBufSize ≤ f.buf.length + chunk.length then
      match emptyBuffer
          { f with buf := f.buf ++ chunk.take (f.maxBufSize - f.buf.length) } with
      | (Status.ok, f2) =>
        appendLoop fuel (chunk.drop (f.maxBufSize - f.buf.length)) f2
      | (st, f2) => some (st, f2)
    else
      some (Status.ok, { f with buf := f.buf ++ chunk })

/-- `UnsafeBufferedWritableFile::Append(data)`.  The fuel
`f.buf.length + data.length + 1` dominates the loop's iteration count
whenever `max_buf_size_ > 0` (each successful iteration removes exactly
`max_buf_size_` from `buf.length + chunk.length`); `none` therefore means
the C++ loop does not terminate. -/
def append (f : UnsafeBufferedWritableFile) (data : List Char) :
    Option (Status × UnsafeBufferedWritableFile) :=
  appendLoop (f.buf.length + data.length + 1) data f

/-- `UnsafeBufferedWritableFile::SyncBefore(offset)` (lines 94-100): if
`offset_ >= offset` the data is already flushed out and OK is returned;
otherwise delegate to `EmptyBuffer()`. -/
def syncBefore (f : UnsafeBufferedWritableFile) (off : Nat) :
    Status × UnsafeBufferedWritableFile :=
  if off ≤ f.offset then (Status.ok, f) else emptyBuffer f

/-- `UnsafeBufferedWritableFile::Sync()` (lines 102-108): `EmptyBuffer()`,
then `base_->Sync()` only if that succeeded. -/
def sync (f : UnsafeBufferedWritableFile) : Status × UnsafeBufferedWritableFile :=
  match emptyBuffer f with
  | (Status.ok, f1) => ((f1.base.syncBytes).1, { f1 with base := (f1.base.syncBytes).2 })
  | (st, f1) => (st, f1)

/-- `UnsafeBufferedWritableFile::Flush()` (lines 110-112): ignore all
Flush() calls, returning OK and changing nothing. -/
def flush (f : UnsafeBufferedWritableFile) : Status × UnsafeBufferedWritableFile :=
  (Status.ok, f)

/-- One public operation of `UnsafeBufferedWritableFile`. -/
inductive Op where
  | append (data : List Char)
  | syncBefore (off : Nat)
  | sync
  | flush
  | emptyBuffer
  deriving DecidableEq

/-- Run one operation; `none` when the operation does not terminate. -/
def runOp (f : UnsafeBufferedWritableFile) : Op → Option (Status × UnsafeBufferedWritableFile)
  | Op.append d => append f d
  | Op.syncBefore off => some (syncBefore f off)
  | Op.sync => some (sync f)
  | Op.flush => some (flush f)
  | Op.emptyBuffer => some (emptyBuffer f)

/-- Run a call sequence, threading the state. -/
def runOps (f : UnsafeBufferedWritableFile) : List Op → Option UnsafeBufferedWritableFile
  | [] => some f
  | op :: ops =>
    match runOp f op with
    | none => none
    | some r => runOps r.2 ops

/-- The same call sequence with every `Flush()` call deleted. -/
def removeFlushOps (ops : List Op) : List Op :=
  ops.filter fun op => !(op == Op.flush)

end UnsafeBufferedWritableFile

/-- A base file whose every call succeeds, starting fresh. -/
def freshBase : BaseFile := { res := fun _ => true, calls := 0, written := [] }

/-- A base file whose every call fails. -/
def failBase : BaseFile := { res := fun _ => false, calls := 0, written := [] }

/-- Behaviour of the `WritableFile* base_` observed by `MeasuredWritableFile`:
the `Status` each delegated operation returns.  The decorator's counters only
depend on these outcomes and on the appended data's length. -/
structure WFBehavior where
  appendRes : Status
  flushRes : Status
  syncRes : Status
  closeRes : Status

/-- State of `pdlfs::MeasuredWritableFile` (env_files.h lines 139-219): a
weak (possibly NULL) base reference and the four counters. -/
structure MeasuredWritableFile where
  base : Option WFBehavior
  numSyncs : Nat
  numFlushes : Nat
  bytes : Nat
  ops : Nat

namespace MeasuredWritableFile

/-- `MeasuredWritableFile::Append(data)` (lines 176-187): Disconnected when
`base_ == NULL`; otherwise delegate, and on success add `data.size()` to
`bytes_` and 1 to `ops_`. -/
def append (f : MeasuredWritableFile) (data : List Char) :
    Status × MeasuredWritableFile :=
  match f.base with
  | none => (Status.disconnected, f)
  | some b =>
    if b.appendRes = Status.ok then
      (Status.ok, { f with bytes := f.bytes + data.length, ops := f.ops + 1 })
    else (b.appendRes, f)

/-- `MeasuredWritableFile::Flush()` (lines 145-155): Disconnected when
`base_ == NULL`; otherwise delegate, and on success increment `num_flushes_`. -/
def flush (f : MeasuredWritableFile) : Status × MeasuredWritableFile :=
  match f.base with
  | none => (Status.disconnected, f)
  | some b =>
    if b.flushRes = Status.ok then
      (Status.ok, { f with numFlushes := f.numFlushes + 1 })
    else (b.flushRes, f)

/-- `MeasuredWritableFile::Sync()` (lines 158-168): Disconnected when
`base_ == NULL`; otherwise delegate, and on success increment `num_syncs_`. -/
def sync (f : MeasuredWritableFile) : Status × MeasuredWritableFile :=
  match f.base with
  | none => (Status.disconnected, f)
  | some b =>
    if b.syncRes = Status.ok then
      (Status.ok, { f with numSyncs := f.numSyncs + 1 })
    else (b.syncRes, f)

/-- `MeasuredWritableFile::Close()` (lines 203-211): when `base_ != NULL`,
delegate to `base_->Close()`, set `base_ = NULL` and return the base's
status; when already NULL, return OK. -/
def close (f : MeasuredWritableFile) : Status × MeasuredWritableFile :=
  match f.base with
  | none => (Status.ok, f)
  | some b => (b.closeRes, { f with base := none })

/-- `MeasuredWritableFile::Reset(base)` (lines 196-200): zero every counter
and install the new base reference. -/
def reset (f : MeasuredWritableFile) (b : Option WFBehavior) :
    MeasuredWritableFile :=
  { f with numSyncs := 0, numFlushes := 0, bytes := 0, ops := 0, base := b }

end MeasuredWritableFile

/-- Behaviour of the `SequentialFile* base_` observed by
`MeasuredSequentialFile`: for a read of `n` bytes, the status and the length
of the data actually placed in `*result` (which may be shorter than `n`);
and the status `Skip` returns. -/
structure SFBehavior where
  readRes : Nat → Status × Nat
  skipRes : Status

/-- State of `pdlfs::MeasuredSequentialFile` (env_files.h lines 225-269). -/
structure MeasuredSequentialFile where
  base : Option SFBehavior
  bytes : Nat
  ops : Nat

namespace MeasuredSequentialFile

/-- `MeasuredSequentialFile::Read(n, result, scratch)` (lines 231-242):
Disconnected when `base_ == NULL`; otherwise delegate, and on success add
`result->size()` to `bytes_` and 1 to `ops_`.  Returns the status and the
returned data's length. -/
def read (f : MeasuredSequentialFile) (n : Nat) :
    Status × Nat × MeasuredSequentialFile :=
  match f.base with
  | none => (Status.disconnected, 0, f)
  | some b =>
    let r := b.readRes n
    if r.1 = Status.ok then
      (Status.ok, r.2, { f with bytes := f.bytes + r.2, ops := f.ops + 1 })
    else (r.1, r.2, f)

/-- `MeasuredSequentialFile::Skip(n)` (lines 245-251): Disconnected when
`base_ == NULL`; otherwise pass straight through, touching no counter. -/
def skip (f : MeasuredSequentialFile) (_n : Nat) :
    Status × MeasuredSequentialFile :=
  match f.base with
  | none => (Status.disconnected, f)
  | some b => (b.skipRes, f)

/-- `MeasuredSequentialFile::Reset(base)` (lines 260-263). -/
def reset (f : MeasuredSequentialFile) (b : Option SFBehavior) :
    MeasuredSequentialFile :=
  { f with bytes := 0, ops := 0, base := b }

end MeasuredSequentialFile

/-- State of `pdlfs::WholeFileBufferedRandomAccessFile` (env_files.h lines
302-341) as `Read` sees it: the capacity `max_buf_size_` and the valid
prefix of the heap buffer, i.e. the first `buf_size_` bytes of `buf_`
(so `bufData.length` models `buf_size_`). -/
structure WholeFileBufferedRandomAccessFile where
  maxBufSize : Nat
  bufData : List Char

namespace WholeFileBufferedRandomAccessFile

/-- `WholeFileBufferedRandomAccessFile::Read(offset, n, result, scratch)`
(lines 320-330): when `offset < buf_size_`, clamp `n` to
`buf_size_ - offset` and return that slice of the buffer; otherwise return
the empty slice.  Always `Status::OK`. -/
def read (f : WholeFileBufferedRandomAccessFile) (off n : Nat) :
    Status × List Char :=
  if off < f.bufData.length then
    let m := if n > f.bufData.length - off then f.bufData.length - off else n
    (Status.ok, (f.bufData.drop off).take m)
  else (Status.ok, [])

end WholeFileBufferedRandomAccessFile

/-- A fresh buffered file over an always-succeeding base, capacity 10 —
the configuration of the spec's concrete scenario. -/
def demo0 : UnsafeBufferedWritableFile :=
  { base := freshBase, offset := 0, maxBufSize := 10, buf := [] }

/-- A fresh buffered file with capacity 0. -/
def zeroCap : UnsafeBufferedWritableFile :=
  { base := freshBase, offset := 0, maxBufSize := 0, buf := [] }

/-- A buffered file holding one byte over an always-failing base. -/
def failDemo : UnsafeBufferedWritableFile :=
  { base := failBase, offset := 0, maxBufSize := 10, buf := ['a'] }

/-- A buffered file holding one byte over an always-succeeding base. -/
def okDemo : UnsafeBufferedWritableFile :=
  { base := freshBase, offset := 0, maxBufSize := 10, buf := ['a'] }

/-- A base whose first call succeeds and whose later calls all fail. -/
def firstOkBase : BaseFile :=
  { res := fun k => k == 0, calls := 0, written := [] }

/-- A fresh buffered file of capacity 2 over `firstOkBase`. -/
def cap2FirstOk : UnsafeBufferedWritableFile :=
  { base := firstOkBase, offset := 0, maxBufSize := 2, buf := [] }

/-- A measured writable file whose base reference is absent. -/
def mwfAbsent : MeasuredWritableFile :=
  { base := none, numSyncs := 0, numFlushes := 0, bytes := 0, ops := 0 }

/-- A measured sequential file whose base reference is absent. -/
def msfAbsent : MeasuredSequentialFile :=
  { base := none, bytes := 0, ops := 0 }

/-- First step of the spec's concrete scenario: `Append("abcdefg")`. -/
def c1Step1 : Option (Status × UnsafeBufferedWritableFile) :=
  UnsafeBufferedWritableFile.append demo0 ['a', 'b', 'c', 'd', 'e', 'f', 'g']

/-- Second step: `Append("xyz")` after the first. -/
def c1Step2 : Option (Status × UnsafeBufferedWritableFile) :=
  c1Step1.bind fun r => UnsafeBufferedWritableFile.append r.2 ['x', 'y', 'z']

/-- Third step: `Append("Q")` after the second. -/
def c1Step3 : Option (Status × UnsafeBufferedWritableFile) :=
  c1Step2.bind fun r => UnsafeBufferedWritableFile.append r.2 ['Q']

/-- The state `demo0` reaches after `Append("abc")`, `Flush()`,
`EmptyBuffer()`: base called once, "abc" written, offset 3, buffer empty. -/
def c5Final : UnsafeBufferedWritableFile :=
  ⟨⟨fun _ => true, 1, ['a', 'b', 'c']⟩, 3, 10, []⟩

/-- A base writable file behaviour whose every operation succeeds. -/
def wbOk : WFBehavior := ⟨Status.ok, Status.ok, Status.ok, Status.ok⟩

/-- A base sequential file behaviour that succeeds and returns at most two
bytes per read. -/
def sbOk : SFBehavior := ⟨fun n => (Status.ok, min n 2), Status.ok⟩

/-- A measured writable file over `wbOk` with zeroed counters. -/
def mwfOk : MeasuredWritableFile := ⟨some wbOk, 0, 0, 0, 0⟩

/-- A measured sequential file over `sbOk` with zeroed counters. -/
def msfOk : MeasuredSequentialFile := ⟨some sbOk, 0, 0⟩

/-- A whole-file buffered file of capacity 10, loaded with three bytes. -/
def wfDemo : WholeFileBufferedRandomAccessFile := ⟨10, ['a', 'b', 'c']⟩

/-- A base whose first call fails and whose later calls all succeed. -/
def secondOkBase : BaseFile :=
  { res := fun k => decide (1 ≤ k), calls := 0, written := [] }

/-- A capacity-2 buffered file holding one byte over `secondOkBase`. -/
def c10Demo : UnsafeBufferedWritableFile :=
  { base := secondOkBase, offset := 0, maxBufSize := 2, buf := ['z'] }

namespace UnsafeBufferedWritableFile

lemma emptyBuffer_of_empty (f : UnsafeBufferedWritableFile)
    (h : f.buf.length = 0) : emptyBuffer f = (Status.ok, f) := by
  simp [emptyBuffer, h]

lemma emptyBuffer_of_ok (f : UnsafeBufferedWritableFile)
    (h : f.buf.length ≠ 0) (hres : f.base.res f.base.calls = true) :
    emptyBuffer f =
      (Status.ok,
        { f with
            base := { res := f.base.res, calls := f.base.calls + 1,
                      written := f.base.written ++ f.buf },
            offset := f.offset + f.buf.length, buf := [] }) := by
  simp [emptyBuffer, BaseFile.appendBytes, h, hres]

lemma emptyBuffer_of_fail (f : UnsafeBufferedWritableFile)
    (h : f.buf.length ≠ 0) (hres : f.base.res f.base.calls = false) :
    emptyBuffer f =
      (Status.ioerr, { f with base := { f.base with calls := f.base.calls + 1 } }) := by
  simp [emptyBuffer, BaseFile.appendBytes, h, hres]

/-- `EmptyBuffer` leaves the capacity alone. -/
lemma emptyBuffer_maxBufSize (f : UnsafeBufferedWritableFile) :
    (emptyBuffer f).2.maxBufSize = f.maxBufSize := by
  rcases h : f.base.res f.base.calls with _ | _ <;>
    rcases hb : f.buf.length with _ | n
  · rw [emptyBuffer_of_empty f hb]
  · rw [emptyBuffer_of_fail f (by simp [hb]) h]
  · rw [emptyBuffer_of_empty f hb]
  · rw [emptyBuffer_of_ok f (by simp [hb]) h]

/-- `EmptyBuffer` never decreases the offset. -/
lemma emptyBuffer_offset_mono (f : UnsafeBufferedWritableFile) :
    f.offset ≤ (emptyBuffer f).2.offset := by
  rcases h : f.base.res f.base.calls with _ | _ <;>
    rcases hb : f.buf.length with _ | n
  · rw [emptyBuffer_of_empty f hb]
  · rw [emptyBuffer_of_fail f (by simp [hb]) h]
  · rw [emptyBuffer_of_empty f hb]
  · rw [emptyBuffer_of_ok f (by simp [hb]) h]; simp

/-- `EmptyBuffer` preserves the two state invariants. -/
lemma emptyBuffer_inv (f : UnsafeBufferedWritableFile)
    (h1 : f.buf.length ≤ f.maxBufSize) (h2 : f.offset = f.base.written.length) :
    (emptyBuffer f).2.buf.length ≤ (emptyBuffer f).2.maxBufSize ∧
      (emptyBuffer f).2.offset = (emptyBuffer f).2.base.written.length := by
  rcases h : f.base.res f.base.calls with _ | _ <;>
    rcases hb : f.buf.length with _ | n
  · rw [emptyBuffer_of_empty f hb]; exact ⟨h1, h2⟩
  · rw [emptyBuffer_of_fail f (by simp [hb]) h]; exact ⟨h1, h2⟩
  · rw [emptyBuffer_of_empty f hb]; exact ⟨h1, h2⟩
  · rw [emptyBuffer_of_ok f (by simp [hb]) h]; simp [h2]

/-- With capacity 0 and an empty buffer, the `Append` while-loop never
terminates: no amount of fuel makes it return, because the loop guard
`buf.size + chunk.size >= 0` always holds and `left = 0`, so the chunk never
shrinks and `EmptyBuffer` succeeds vacuously on the empty buffer. -/
lemma appendLoop_max_zero (fuel : Nat) :
    ∀ (chunk : List Char) (f : UnsafeBufferedWritableFile),
      f.maxBufSize = 0 → f.buf = [] → appendLoop fuel chunk f = none := by
  induction fuel with
  | zero => intro chunk f _ _; rfl
  | succ fuel ih =>
    intro chunk f h0 hb
    obtain ⟨b, off, mx, bf⟩ := f
    simp only at h0 hb
    subst h0; subst hb
    rw [appendLoop, if_pos (by simp)]
    simp only [List.length_nil, Nat.zero_sub, List.take_zero, List.append_nil,
      List.nil_append]
    rw [emptyBuffer_of_empty ⟨b, off, 0, []⟩ rfl]
    simpa using ih chunk ⟨b, off, 0, []⟩ rfl rfl

/-- Fuel bound for the `Append` loop: whenever the capacity is positive and
the buffer respects it, `buf.length + chunk.length` iterations suffice
(each successful flush removes exactly `max_buf_size_` from that measure). -/
lemma appendLoop_isSome (fuel : Nat) :
    ∀ (chunk : List Char) (f : UnsafeBufferedWritableFile),
      0 < f.maxBufSize → f.buf.length ≤ f.maxBufSize →
      f.buf.length + chunk.length < fuel →
      (appendLoop fuel chunk f).isSome := by
  induction fuel with
  | zero => intro chunk f _ _ hfuel; omega
  | succ fuel ih =>
    intro chunk f hmax hb hfuel
    rw [appendLoop]
    by_cases hguard : f.maxBufSize ≤ f.buf.length + chunk.length
    · rw [if_pos hguard]
      have hleft_le : f.maxBufSize - f.buf.length ≤ chunk.length := by omega
      have hlen : (f.buf ++ chunk.take (f.maxBufSize - f.buf.length)).length
          = f.maxBufSize := by
        simp [List.length_take]
        omega
      have hne : (f.buf ++ chunk.take (f.maxBufSize - f.buf.length)).length ≠ 0 := by
        rw [hlen]; omega
      rcases hres : f.base.res f.base.calls with _ | _
      · rw [emptyBuffer_of_fail
          { f with buf := f.buf ++ chunk.take (f.maxBufSize - f.buf.length) } hne hres]
        simp
      · rw [emptyBuffer_of_ok
          { f with buf := f.buf ++ chunk.take (f.maxBufSize - f.buf.length) } hne hres]
        show (appendLoop fuel (chunk.drop (f.maxBufSize - f.buf.length)) _).isSome = true
        apply ih
        · exact hmax
        · simp
        · simp [List.length_drop]
          omega
    · rw [if_neg hguard]; simp

/-- `base_->Sync()` never changes the record of successfully written bytes. -/
lemma syncBytes_written (b : BaseFile) : (b.syncBytes).2.written = b.written := by
  unfold BaseFile.syncBytes
  split <;> rfl

/-- The `Append` loop preserves the state invariants: buffer within capacity,
offset equal to the bytes successfully handed to the base, offset
non-decreasing, capacity unchanged. -/
lemma appendLoop_some_inv (fuel : Nat) :
    ∀ (chunk : List Char) (f : UnsafeBufferedWritableFile) (s : Status)
      (f' : UnsafeBufferedWritableFile),
      appendLoop fuel chunk f = some (s, f') →
      f.buf.length ≤ f.maxBufSize → f.offset = f.base.written.length →
      f'.buf.length ≤ f'.maxBufSize ∧ f'.offset = f'.base.written.length ∧
        f.offset ≤ f'.offset ∧ f'.maxBufSize = f.maxBufSize := by
  induction fuel with
  | zero => intro chunk f s f' h; exact absurd h (by simp [appendLoop])
  | succ fuel ih =>
    intro chunk f s f' h hb hoff
    rw [appendLoop] at h
    by_cases hguard : f.maxBufSize ≤ f.buf.length + chunk.length
    · rw [if_pos hguard] at h
      have hleft_le : f.maxBufSize - f.buf.length ≤ chunk.length := by omega
      have hlen : (f.buf ++ chunk.take (f.maxBufSize - f.buf.length)).length
          = f.maxBufSize := by
        simp [List.length_take]
        omega
      rcases Nat.eq_zero_or_pos f.maxBufSize with h0 | hpos
      · rw [emptyBuffer_of_empty
            { f with buf := f.buf ++ chunk.take (f.maxBufSize - f.buf.length) }
            (by rw [hlen, h0])] at h
        have h2 : appendLoop fuel (chunk.drop (f.maxBufSize - f.buf.length))
            { f with buf := f.buf ++ chunk.take (f.maxBufSize - f.buf.length) }
            = some (s, f') := h
        have := ih (chunk.drop (f.maxBufSize - f.buf.length)) _ s f' h2
          (by simpa using hlen.le) hoff
        simpa using this
      · have hne : (f.buf ++ chunk.take (f.maxBufSize - f.buf.length)).length ≠ 0 := by
          rw [hlen]; omega
        rcases hres : f.base.res f.base.calls with _ | _
        · rw [emptyBuffer_of_fail
            { f with buf := f.buf ++ chunk.take (f.maxBufSize - f.buf.length) }
            hne hres] at h
          have h2 : (some (Status.ioerr,
              { f with
                  buf := f.buf ++ chunk.take (f.maxBufSize - f.buf.length),
                  base := { f.base with calls := f.base.calls + 1 } })
              : Option (Status × UnsafeBufferedWritableFile)) = some (s, f') := h
          obtain ⟨-, rfl⟩ : Status.ioerr = s ∧ _ = f' := by
            simpa using h2
          exact ⟨hlen.le, hoff, le_refl _, rfl⟩
        · rw [emptyBuffer_of_ok
            { f with buf := f.buf ++ chunk.take (f.maxBufSize - f.buf.length) }
            hne hres] at h
          have h2 : appendLoop fuel (chunk.drop (f.maxBufSize - f.buf.length))
              { f with
                  base := { res := f.base.res, calls := f.base.calls + 1,
                            written := f.base.written ++
                              (f.buf ++ chunk.take (f.maxBufSize - f.buf.length)) },
                  offset := f.offset +
                    (f.buf ++ chunk.take (f.maxBufSize - f.buf.length)).length,
                  buf := [] } = some (s, f') := h
          have hrec := ih (chunk.drop (f.maxBufSize - f.buf.length)) _ s f' h2
            (by simp) (by simp [hoff])
          refine ⟨hrec.1, hrec.2.1, le_trans ?_ hrec.2.2.1, by simpa using hrec.2.2.2⟩
          simp
    · rw [if_neg hguard] at h
      obtain ⟨-, rfl⟩ : Status.ok = s ∧ _ = f' := by simpa using h
      exact ⟨by simpa using Nat.le_of_lt (by omega), hoff, le_refl _, rfl⟩

/-- Every single operation preserves the state invariants. -/
lemma runOp_some_inv (f : UnsafeBufferedWritableFile) (op : Op) (s : Status)
    (f' : UnsafeBufferedWritableFile) (h : runOp f op = some (s, f'))
    (hb : f.buf.length ≤ f.maxBufSize) (hoff : f.offset = f.base.written.length) :
    f'.buf.length ≤ f'.maxBufSize ∧ f'.offset = f'.base.written.length ∧
      f.offset ≤ f'.offset ∧ f'.maxBufSize = f.maxBufSize := by
  cases op with
  | append d => exact appendLoop_some_inv _ d f s f' h hb hoff
  | syncBefore off =>
    have h2 : syncBefore f off = (s, f') := by simpa [runOp] using h
    obtain rfl : f' = (syncBefore f off).2 := by rw [h2]
    unfold syncBefore
    split
    · exact ⟨hb, hoff, le_refl _, rfl⟩
    · exact ⟨(emptyBuffer_inv f hb hoff).1, (emptyBuffer_inv f hb hoff).2,
        emptyBuffer_offset_mono f, emptyBuffer_maxBufSize f⟩
  | sync =>
    have h2 : sync f = (s, f') := by simpa [runOp] using h
    obtain rfl : f' = (sync f).2 := by rw [h2]
    have hE := emptyBuffer_inv f hb hoff
    have hM := emptyBuffer_maxBufSize f
    have hO := emptyBuffer_offset_mono f
    have hfields : (sync f).2.buf = (emptyBuffer f).2.buf ∧
        (sync f).2.offset = (emptyBuffer f).2.offset ∧
        (sync f).2.maxBufSize = (emptyBuffer f).2.maxBufSize ∧
        (sync f).2.base.written = (emptyBuffer f).2.base.written := by
      unfold sync
      rcases hEB : emptyBuffer f with ⟨st, f1⟩
      cases st <;> simp [syncBytes_written]
    rw [hfields.1, hfields.2.1, hfields.2.2.1, hfields.2.2.2]
    exact ⟨hE.1, hE.2, hO, hM⟩
  | flush =>
    have h2 : flush f = (s, f') := by simpa [runOp] using h
    obtain rfl : f' = f := by rw [show f = (flush f).2 from rfl, h2]
    exact ⟨hb, hoff, le_refl _, rfl⟩
  | emptyBuffer =>
    have h2 : emptyBuffer f = (s, f') := by simpa [runOp] using h
    obtain rfl : f' = (emptyBuffer f).2 := by rw [h2]
    exact ⟨(emptyBuffer_inv f hb hoff).1, (emptyBuffer_inv f hb hoff).2,
      emptyBuffer_offset_mono f, emptyBuffer_maxBufSize f⟩

/-- Invariant preservation along a whole call sequence. -/
lemma runOps_some_inv (ops : List Op) :
    ∀ (f f' : UnsafeBufferedWritableFile), runOps f ops = some f' →
      f.buf.length ≤ f.maxBufSize → f.offset = f.base.written.length →
      f'.buf.length ≤ f'.maxBufSize ∧ f'.offset = f'.base.written.length ∧
        f.offset ≤ f'.offset := by
  induction ops with
  | nil =>
    intro f f' h hb hoff
    obtain rfl : f = f' := by simpa [runOps] using h
    exact ⟨hb, hoff, le_refl _⟩
  | cons op ops ih =>
    intro f f' h hb hoff
    rw [runOps] at h
    rcases hstep : runOp f op with _ | r
    · rw [hstep] at h; exact absurd h (by simp)
    · rw [hstep] at h
      have hmid := runOp_some_inv f op r.1 r.2 (by rw [hstep]) hb hoff
      have htail := ih r.2 f' h hmid.1 hmid.2.1
      exact ⟨htail.1, htail.2.1, le_trans hmid.2.2.1 htail.2.2⟩

/-- Deleting the `Flush()` calls from a call sequence changes nothing:
`Flush` is the identity on the state and always succeeds. -/
lemma runOps_removeFlush (ops : List Op) :
    ∀ f : UnsafeBufferedWritableFile, runOps f (removeFlushOps ops) = runOps f ops := by
  induction ops with
  | nil => intro f; rfl
  | cons op ops ih =>
    intro f
    by_cases hop : op = Op.flush
    · subst hop
      have h1 : removeFlushOps (Op.flush :: ops) = removeFlushOps ops := by
        simp [removeFlushOps]
      have h2 : runOp f Op.flush = some (Status.ok, f) := rfl
      rw [h1, runOps, h2]
      exact ih f
    · have h1 : removeFlushOps (op :: ops) = op :: removeFlushOps ops := by
        simp [removeFlushOps, hop]
      rw [h1, runOps, runOps]
      rcases hstep : runOp f op with _ | r
      · rfl
      · exact ih r.2

end UnsafeBufferedWritableFile

open UnsafeBufferedWritableFile

/-- C1 counterexample: in the concrete capacity-10 scenario, the state
after `Append("abcdefg")` then `Append("xyz")` is buffer = "" and
offset = 10, not buffer = "abcdefgxyz" and offset = 0 as claimed: the
loop guard of `Append` uses `>=`, so reaching the capacity exactly already
forces the flush. -/
theorem C1_counterexample :
    (c1Step2.map fun r => (r.2.buf, r.2.offset)) = some ([], 10) ∧
      (c1Step2.map fun r => (r.2.buf, r.2.offset)) ≠
        some (['a', 'b', 'c', 'd', 'e', 'f', 'g', 'x', 'y', 'z'], 0) := by
  constructor
  · rfl
  · decide

/-- C1 (amended): with capacity 10, `Append("abcdefg")` leaves
buffer = "abcdefg", offset = 0; `Append("xyz")` brings the total to exactly
10, which the code already flushes (`>=` guard), leaving buffer empty and
offset = 10; `Append("Q")` then simply buffers "Q", ending with offset = 10
and buffer = "Q".  All three calls return OK. -/
theorem C1_concrete_scenario :
    (c1Step1.map fun r => (r.1, r.2.buf, r.2.offset))
        = some (Status.ok, ['a', 'b', 'c', 'd', 'e', 'f', 'g'], 0) ∧
      (c1Step2.map fun r => (r.1, r.2.buf, r.2.offset))
        = some (Status.ok, [], 10) ∧
      (c1Step3.map fun r => (r.1, r.2.buf, r.2.offset))
        = some (Status.ok, ['Q'], 10) := by
  exact ⟨rfl, rfl, rfl⟩

/-- C2 counterexample: with buffer capacity 0 the `Append` while-loop never
terminates (the guard `buf.size + chunk.size >= 0` always holds and each
iteration consumes nothing), here witnessed by the fuelled model returning
`none` — `appendLoop_max_zero` shows no fuel suffices. -/
theorem C2_counterexample :
    append zeroCap [] = none ∧ append zeroCap ['a'] = none :=
  ⟨rfl, rfl⟩

/-- C2 (amended): every operation of `UnsafeBufferedWritableFile` returns,
provided every delegated call to the wrapped writer returns, whenever the
buffer capacity is positive (and the buffer is within capacity); for
capacity 0 `Append` loops forever. -/
theorem C2_ops_terminate (f : UnsafeBufferedWritableFile) (op : Op)
    (hmax : 0 < f.maxBufSize) (hb : f.buf.length ≤ f.maxBufSize) :
    (runOp f op).isSome := by
  cases op with
  | append d =>
    show (append f d).isSome
    exact appendLoop_isSome _ d f hmax hb (by omega)
  | syncBefore off => rfl
  | sync => rfl
  | flush => rfl
  | emptyBuffer => rfl

theorem C2_witness : (runOp demo0 (Op.append ['a', 'b', 'c'])).isSome :=
  C2_ops_terminate demo0 (Op.append ['a', 'b', 'c']) (by decide) (by decide)

/-- C5: starting from any state whose buffer is within capacity and whose
offset equals the bytes successfully handed to the wrapped writer, after any
terminating call sequence the buffer is still within capacity, the offset
has not decreased, and the offset again equals the cumulative bytes
successfully appended to the wrapped writer. -/
theorem C5_state_invariant (f f' : UnsafeBufferedWritableFile) (ops : List Op)
    (hb : f.buf.length ≤ f.maxBufSize) (hoff : f.offset = f.base.written.length)
    (hrun : runOps f ops = some f') :
    f'.buf.length ≤ f'.maxBufSize ∧ f.offset ≤ f'.offset ∧
      f'.offset = f'.base.written.length := by
  have h := runOps_some_inv ops f f' hrun hb hoff
  exact ⟨h.1, h.2.2, h.2.1⟩

theorem C5_witness :
    c5Final.buf.length ≤ c5Final.maxBufSize ∧ demo0.offset ≤ c5Final.offset ∧
      c5Final.offset = c5Final.base.written.length :=
  C5_state_invariant demo0 c5Final
    [Op.append ['a', 'b', 'c'], Op.flush, Op.emptyBuffer] (by decide) rfl rfl

/-- C3 counterexample: with the base reference absent,
`MeasuredWritableFile::Close` returns OK — not the disconnected failure the
claim requires of every operation. -/
theorem C3_counterexample :
    (MeasuredWritableFile.close mwfAbsent).1 = Status.ok ∧
      (MeasuredWritableFile.close mwfAbsent).1 ≠ Status.disconnected := by
  decide

/-- C3 (amended): when the base reference is absent, `Append`, `Flush` and
`Sync` of `MeasuredWritableFile` and `Read` and `Skip` of
`MeasuredSequentialFile` return the disconnected failure and leave the
whole state — counters included — unchanged; `Close`, the one exception,
returns success and also changes nothing. -/
theorem C3_disconnected (w : MeasuredWritableFile) (r : MeasuredSequentialFile)
    (data : List Char) (n k : Nat) (hw : w.base = none) (hr : r.base = none) :
    MeasuredWritableFile.append w data = (Status.disconnected, w) ∧
      MeasuredWritableFile.flush w = (Status.disconnected, w) ∧
      MeasuredWritableFile.sync w = (Status.disconnected, w) ∧
      MeasuredWritableFile.close w = (Status.ok, w) ∧
      MeasuredSequentialFile.read r n = (Status.disconnected, 0, r) ∧
      MeasuredSequentialFile.skip r k = (Status.disconnected, r) := by
  refine ⟨?_, ?_, ?_, ?_, ?_, ?_⟩ <;>
    simp [MeasuredWritableFile.append, MeasuredWritableFile.flush,
      MeasuredWritableFile.sync, MeasuredWritableFile.close,
      MeasuredSequentialFile.read, MeasuredSequentialFile.skip, hw, hr]

theorem C3_witness :
    MeasuredWritableFile.append mwfAbsent ['a'] = (Status.disconnected, mwfAbsent) ∧
      MeasuredSequentialFile.read msfAbsent 4 = (Status.disconnected, 0, msfAbsent) :=
  ⟨(C3_disconnected mwfAbsent msfAbsent ['a'] 4 0 rfl rfl).1,
   (C3_disconnected mwfAbsent msfAbsent ['a'] 4 0 rfl rfl).2.2.2.2.1⟩

/-- C4: `EmptyBuffer()` with an empty buffer is a successful no-op that does
not touch the wrapped writer; with a non-empty buffer it makes exactly one
base `Append` call of the whole buffer content and returns that call's
status: on success the offset advances by the buffer length and the buffer
clears, on failure buffer, offset and the record of written bytes are all
unchanged. -/
theorem C4_emptyBuffer_contract (f : UnsafeBufferedWritableFile) :
    (f.buf.length = 0 → emptyBuffer f = (Status.ok, f)) ∧
      (f.buf.length ≠ 0 →
        (emptyBuffer f).2.base.calls = f.base.calls + 1 ∧
        (emptyBuffer f).1 = (f.base.appendBytes f.buf).1 ∧
        ((emptyBuffer f).1 = Status.ok →
          (emptyBuffer f).2.base.written = f.base.written ++ f.buf ∧
          (emptyBuffer f).2.offset = f.offset + f.buf.length ∧
          (emptyBuffer f).2.buf = []) ∧
        ((emptyBuffer f).1 ≠ Status.ok →
          (emptyBuffer f).2.buf = f.buf ∧
          (emptyBuffer f).2.offset = f.offset ∧
          (emptyBuffer f).2.base.written = f.base.written)) := by
  refine ⟨fun h => emptyBuffer_of_empty f h, fun h => ?_⟩
  rcases hres : f.base.res f.base.calls with _ | _
  · rw [emptyBuffer_of_fail f h hres]
    simp [BaseFile.appendBytes, hres]
  · rw [emptyBuffer_of_ok f h hres]
    simp [BaseFile.appendBytes, hres]

theorem C4_witness :
    (emptyBuffer okDemo).2.base.calls = okDemo.base.calls + 1 ∧
      (emptyBuffer okDemo).2.buf = [] :=
  ⟨((C4_emptyBuffer_contract okDemo).2 (by decide)).1,
   ((((C4_emptyBuffer_contract okDemo).2 (by decide)).2.2.1) (by decide)).2.2⟩

/-- C6: `Flush()` always returns success and leaves the state — buffer,
offset and wrapped writer — untouched, and deleting every `Flush()` from
any call sequence yields the identical final state. -/
theorem C6_flush_inert (f : UnsafeBufferedWritableFile) (ops : List Op) :
    flush f = (Status.ok, f) ∧ runOps f ops = runOps f (removeFlushOps ops) :=
  ⟨rfl, (runOps_removeFlush ops f).symm⟩

/-- C7 counterexample: `SyncBefore(5)` on a one-byte buffer over a failing
base returns the I/O failure, so two consecutive `SyncBefore(5)` calls do
not both succeed as the claim states. -/
theorem C7_counterexample :
    (syncBefore failDemo 5).1 = Status.ioerr ∧ Status.ioerr ≠ Status.ok := by
  decide

/-- C7 (amended): `SyncBefore(x)` returns success immediately without any
state change when the offset already covers `x`, and otherwise delegates to
`EmptyBuffer()` — whose failure it returns, so two consecutive calls need
the delegated flush to succeed; whenever the first call succeeds, the second
also succeeds, changes nothing, and across both calls the wrapped writer is
invoked at most once. -/
theorem C7_syncBefore_contract (f : UnsafeBufferedWritableFile) (x : Nat) :
    (x ≤ f.offset → syncBefore f x = (Status.ok, f)) ∧
      (f.offset < x → syncBefore f x = emptyBuffer f) ∧
      ((syncBefore f x).1 = Status.ok →
        (syncBefore (syncBefore f x).2 x).1 = Status.ok ∧
        (syncBefore (syncBefore f x).2 x).2 = (syncBefore f x).2 ∧
        (syncBefore (syncBefore f x).2 x).2.base.calls ≤ f.base.calls + 1) := by
  refine ⟨fun h => by simp [syncBefore, h], fun h => by simp [syncBefore, Nat.not_le.mpr h],
    fun hok => ?_⟩
  by_cases hx : x ≤ f.offset
  · simp [syncBefore, hx]
  · have hx' : f.offset < x := Nat.not_le.mp hx
    have hfirst : syncBefore f x = emptyBuffer f := by
      simp [syncBefore, hx]
    rw [hfirst] at hok ⊢
    rcases hb : f.buf.length with _ | n
    · rw [emptyBuffer_of_empty f hb] at hok ⊢
      simp [syncBefore, hx, emptyBuffer_of_empty f hb]
    · rcases hres : f.base.res f.base.calls with _ | _
      · rw [emptyBuffer_of_fail f (by simp [hb]) hres] at hok
        exact absurd hok (by simp)
      · rw [emptyBuffer_of_ok f (by simp [hb]) hres]
        by_cases hx2 : x ≤ f.offset + f.buf.length
        · simp [syncBefore, hx2]
        · refine ⟨?_, ?_, ?_⟩ <;>
            simp [syncBefore, hx2, emptyBuffer_of_empty]

theorem C7_witness :
    (syncBefore (syncBefore okDemo 5).2 5).1 = Status.ok ∧
      (syncBefore (syncBefore okDemo 5).2 5).2.base.calls ≤ okDemo.base.calls + 1 :=
  ⟨((C7_syncBefore_contract okDemo 5).2.2 (by decide)).1,
   ((C7_syncBefore_contract okDemo 5).2.2 (by decide)).2.2⟩

/-- C8: `WholeFileBufferedRandomAccessFile::Read(offset, n)` always
succeeds; at or beyond the buffered length it returns the empty result;
below it, it returns the slice of the buffer starting at `offset` of length
`min n (buffered - offset)`; the returned bytes never extend beyond the
buffered length, hence (when the buffered length is within capacity) never
beyond capacity; with nothing buffered every read returns nothing. -/
theorem C8_read_contract (f : WholeFileBufferedRandomAccessFile) (off n : Nat) :
    (WholeFileBufferedRandomAccessFile.read f off n).1 = Status.ok ∧
      (f.bufData.length ≤ off →
        (WholeFileBufferedRandomAccessFile.read f off n).2 = []) ∧
      (off < f.bufData.length →
        (WholeFileBufferedRandomAccessFile.read f off n).2
            = (f.bufData.drop off).take (min n (f.bufData.length - off)) ∧
          (WholeFileBufferedRandomAccessFile.read f off n).2.length
            = min n (f.bufData.length - off)) ∧
      (WholeFileBufferedRandomAccessFile.read f off n).2.length
        ≤ f.bufData.length - off ∧
      (f.bufData.length ≤ f.maxBufSize →
        (WholeFileBufferedRandomAccessFile.read f off n).2.length
          ≤ f.maxBufSize - off) ∧
      (f.bufData.length = 0 →
        (WholeFileBufferedRandomAccessFile.read f off n).2 = []) := by
  unfold WholeFileBufferedRandomAccessFile.read
  by_cases hoff : off < f.bufData.length
  · have hmin : (if n > f.bufData.length - off then f.bufData.length - off else n)
        = min n (f.bufData.length - off) := by
      split <;> omega
    rw [if_pos hoff, hmin]
    have hlen : ((f.bufData.drop off).take (min n (f.bufData.length - off))).length
        = min n (f.bufData.length - off) := by
      simp
    refine ⟨rfl, fun h => absurd hoff (by omega), fun _ => ⟨rfl, hlen⟩, ?_, ?_, ?_⟩
    · rw [hlen]; omega
    · intro hcap; rw [hlen]; omega
    · intro h0; omega
  · rw [if_neg hoff]
    refine ⟨rfl, fun _ => rfl, fun h => absurd h hoff, by simp, fun _ => by simp,
      fun _ => rfl⟩

theorem C8_witness :
    (WholeFileBufferedRandomAccessFile.read wfDemo 1 5).2
        = (wfDemo.bufData.drop 1).take (min 5 (wfDemo.bufData.length - 1)) ∧
      (WholeFileBufferedRandomAccessFile.read wfDemo 1 5).2.length
        = min 5 (wfDemo.bufData.length - 1) :=
  (C8_read_contract wfDemo 1 5).2.2.1 (by decide)

/-- C9: the measurement counters move only on success and by exact amounts:
for `MeasuredWritableFile`, a successful `Append(data)` adds `data.length`
to the byte counter and one to the operation counter, a successful `Flush`
adds one to the flush counter, a successful `Sync` adds one to the sync
counter, and a failed base call changes nothing; for
`MeasuredSequentialFile`, a successful `Read` adds the returned length
(possibly less than requested) to the byte counter and one to the operation
counter, a failed one changes nothing, and `Skip` never changes the
state. -/
theorem C9_counters_exact (w : MeasuredWritableFile) (bw : WFBehavior)
    (r : MeasuredSequentialFile) (br : SFBehavior) (data : List Char) (n k : Nat)
    (hw : w.base = some bw) (hr : r.base = some br) :
    (bw.appendRes = Status.ok →
        MeasuredWritableFile.append w data =
          (Status.ok, { w with bytes := w.bytes + data.length, ops := w.ops + 1 })) ∧
      (bw.appendRes ≠ Status.ok →
        MeasuredWritableFile.append w data = (bw.appendRes, w)) ∧
      (bw.flushRes = Status.ok →
        MeasuredWritableFile.flush w =
          (Status.ok, { w with numFlushes := w.numFlushes + 1 })) ∧
      (bw.flushRes ≠ Status.ok →
        MeasuredWritableFile.flush w = (bw.flushRes, w)) ∧
      (bw.syncRes = Status.ok →
        MeasuredWritableFile.sync w =
          (Status.ok, { w with numSyncs := w.numSyncs + 1 })) ∧
      (bw.syncRes ≠ Status.ok →
        MeasuredWritableFile.sync w = (bw.syncRes, w)) ∧
      ((br.readRes n).1 = Status.ok →
        MeasuredSequentialFile.read r n =
          (Status.ok, (br.readRes n).2,
            { r with bytes := r.bytes + (br.readRes n).2, ops := r.ops + 1 })) ∧
      ((br.readRes n).1 ≠ Status.ok →
        MeasuredSequentialFile.read r n = ((br.readRes n).1, (br.readRes n).2, r)) ∧
      (MeasuredSequentialFile.skip r k).2 = r := by
  refine ⟨fun h => ?_, fun h => ?_, fun h => ?_, fun h => ?_, fun h => ?_,
    fun h => ?_, fun h => ?_, fun h => ?_, ?_⟩
  all_goals
    simp [MeasuredWritableFile.append, MeasuredWritableFile.flush,
      MeasuredWritableFile.sync, MeasuredSequentialFile.read,
      MeasuredSequentialFile.skip, hw, hr, *]

theorem C9_witness :
    MeasuredWritableFile.append mwfOk ['a', 'b'] =
      (Status.ok,
        { mwfOk with
            bytes := mwfOk.bytes + List.length ['a', 'b'],
            ops := mwfOk.ops + 1 }) ∧
    (MeasuredSequentialFile.skip msfOk 7).2 = msfOk :=
  ⟨(C9_counters_exact mwfOk wbOk msfOk sbOk ['a', 'b'] 3 7 rfl rfl).1 rfl,
   (C9_counters_exact mwfOk wbOk msfOk sbOk ['a', 'b'] 3 7 rfl rfl).2.2.2.2.2.2.2.2⟩

/-- C10 counterexample: with capacity 2 over a base whose first call
succeeds and second fails, `Append("abcd")` from an empty buffer flushes
"ab" successfully and then fails on "cd": it returns the failure with
offset = 2, not with the offset unchanged at 0 as the claim states. -/
theorem C10_counterexample :
    ((append cap2FirstOk ['a', 'b', 'c', 'd']).map fun r => (r.1, r.2.offset))
        = some (Status.ioerr, 2) ∧
      ((append cap2FirstOk ['a', 'b', 'c', 'd']).map fun r => (r.1, r.2.offset))
        ≠ some (Status.ioerr, 0) := by
  constructor
  · rfl
  · decide

/-- C10 (amended): when the FIRST `EmptyBuffer` call made inside
`Append(data)` fails (no earlier flush in this call succeeded; capacity
positive, buffer within capacity, and a flush is triggered), `Append`
returns that failure with the offset unchanged and the buffer left exactly
at full capacity, holding the previously buffered bytes plus the prefix of
`data` used to top the buffer off — only the remaining suffix of `data` is
dropped — and a subsequently successful `EmptyBuffer` hands exactly the
retained buffer content to the wrapped writer, so it is not lost.  (When an
earlier flush inside the same `Append` succeeded, the offset has already
advanced, as the counterexample shows.) -/
theorem C10_append_flush_failure (f : UnsafeBufferedWritableFile)
    (data : List Char) (hmax : 0 < f.maxBufSize)
    (hb : f.buf.length ≤ f.maxBufSize)
    (hguard : f.maxBufSize ≤ f.buf.length + data.length)
    (hfail : f.base.res f.base.calls = false) :
    append f data =
        some (Status.ioerr,
          { f with
              buf := f.buf ++ data.take (f.maxBufSize - f.buf.length),
              base := { f.base with calls := f.base.calls + 1 } }) ∧
      (f.buf ++ data.take (f.maxBufSize - f.buf.length)).length = f.maxBufSize ∧
      (f.base.res (f.base.calls + 1) = true →
        (emptyBuffer
            { f with
                buf := f.buf ++ data.take (f.maxBufSize - f.buf.length),
                base := { f.base with calls := f.base.calls + 1 } }).1
          = Status.ok ∧
        (emptyBuffer
            { f with
                buf := f.buf ++ data.take (f.maxBufSize - f.buf.length),
                base := { f.base with calls := f.base.calls + 1 } }).2.base.written
          = f.base.written ++ (f.buf ++ data.take (f.maxBufSize - f.buf.length)) ∧
        (emptyBuffer
            { f with
                buf := f.buf ++ data.take (f.maxBufSize - f.buf.length),
                base := { f.base with calls := f.base.calls + 1 } }).2.offset
          = f.offset + f.maxBufSize) := by
  have hlen : (f.buf ++ data.take (f.maxBufSize - f.buf.length)).length
      = f.maxBufSize := by
    simp [List.length_take]
    omega
  have hne : (f.buf ++ data.take (f.maxBufSize - f.buf.length)).length ≠ 0 := by
    rw [hlen]; omega
  refine ⟨?_, hlen, fun hnext => ?_⟩
  · have h1 : append f data
        = appendLoop (Nat.succ (f.buf.length + data.length)) data f := rfl
    rw [h1, appendLoop, if_pos hguard,
      emptyBuffer_of_fail
        { f with buf := f.buf ++ data.take (f.maxBufSize - f.buf.length) } hne hfail]
  · rw [emptyBuffer_of_ok
      { f with
          buf := f.buf ++ data.take (f.maxBufSize - f.buf.length),
          base := { f.base with calls := f.base.calls + 1 } } hne hnext]
    refine ⟨rfl, rfl, ?_⟩
    simp [hlen]

theorem C10_witness :
    append c10Demo ['p', 'q'] =
      some (Status.ioerr,
        { c10Demo with
            buf := c10Demo.buf ++
              (['p', 'q'] : List Char).take (c10Demo.maxBufSize - c10Demo.buf.length),
            base := { c10Demo.base with calls := c10Demo.base.calls + 1 } }) :=
  (C10_append_flush_failure c10Demo ['p', 'q'] (by decide) (by decide) (by decide)
    (by decide)).1

end PdlfsEnvFiles
